import Mathlib

/-
Verification of the EC2CronScheduler reconciliation engine
(src/Script/lambda_function.py).

The Python source is shallowly embedded below.  External collaborators are
modelled as explicit oracles:
  * the croniter library: a validity oracle `is_valid : String → Except String
    Bool` and a match oracle `cronMatch : String → Nat → Except String Bool`
    (an `Except.error` models the library call raising an exception);
  * the AWS control plane (boto3): an `Env` record giving the outcome of
    region discovery, per-region instance listings, and the per-attempt
    outcome of each mutating start/stop call;
  * `random.uniform(0, 1)`: a jitter stream `jitter : Nat → ℚ`;
  * `datetime.now()`: a clock stream `clock : Nat → Nat` (timestamps are
    opaque minute-resolution instants, represented as naturals).
Side effects (remote calls, log lines) are reified as an event trace.
-/

namespace EC2CronScheduler

/-- One EC2 instance as seen by the scheduler: its id and its tag list
(the `Tags` field of the API response; absent `Tags` is the empty list). -/
structure Instance where
  instanceId : String
  tags : List (String × String)
deriving DecidableEq

/-- The two mutating actions; the Python code uses the strings
`'start'` / `'stop'`, and `None` (here `Option.none`) for skip. -/
inductive Action where
  | start
  | stop
deriving DecidableEq

/-- Embedding of Python `str.lower()` (the tag values compared are ASCII):
lower-case every character. -/
def strLower (s : String) : String := String.mk (s.data.map Char.toLower)

/-- Python builds `tags = {tag['Key']: tag['Value'] for tag in ...}` and reads
it with `tags.get(key)`: with duplicate keys the later entry wins, so the
lookup returns the value of the last pair whose key matches. -/
def tagsGet (tags : List (String × String)) (key : String) : Option String :=
  (tags.reverse.find? (fun p => p.1 == key)).map (fun p => p.2)

/-- Embedding of `evaluate_instance(instance, current_time)`.  `is_valid` and
`cronMatch` are the croniter oracles (`croniter.is_valid` and
`croniter.match`); an `Except.error` models the library call raising, which
the source catches in its `try` block.  Returns the `(action, message)` pair
of the source, with `none` for a skipped instance. -/
def evaluate_instance (is_valid : String → Except String Bool)
    (cronMatch : String → Nat → Except String Bool)
    (inst : Instance) (current_time : Nat) : Option Action × String :=
  let instance_id := inst.instanceId
  let works_on_schedule := tagsGet inst.tags "WorksOnSchedule"
  let working_expression := tagsGet inst.tags "WorkingExpression"
  match works_on_schedule with
  | none =>
    (none, "Skipping instance " ++ instance_id ++
      ": \x27WorksOnSchedule\x27 tag is missing or not true.")
  | some w =>
    if strLower w ≠ "true" then
      (none, "Skipping instance " ++ instance_id ++
        ": \x27WorksOnSchedule\x27 tag is missing or not true.")
    else
      match working_expression with
      | none =>
        (none, "Skipping instance " ++ instance_id ++
          ": \x27WorkingExpression\x27 tag is missing or empty.")
      | some expr =>
        if expr = "" then
          (none, "Skipping instance " ++ instance_id ++
            ": \x27WorkingExpression\x27 tag is missing or empty.")
        else
          match is_valid expr with
          | Except.error err =>
            (none, "Error evaluating instance " ++ instance_id ++ ": " ++ err)
          | Except.ok false =>
            (none, "Skipping instance " ++ instance_id ++
              ": Invalid cron expression \x27" ++ expr ++ "\x27.")
          | Except.ok true =>
            match cronMatch expr current_time with
            | Except.error err =>
              (none, "Error evaluating instance " ++ instance_id ++ ": " ++ err)
            | Except.ok true =>
              (some Action.start, "Starting instance " ++ instance_id ++
                ": Current time matches cron expression.")
            | Except.ok false =>
              (some Action.stop, "Stopping instance " ++ instance_id ++
                ": Current time does not match cron expression.")

/-- Embedding of the loop body of `exponential_backoff`.  The Python code is
`for attempt in range(max_retries)`; here the list argument is that range.
`op attempt` is the outcome of calling `func(**kwargs)` on the given attempt
(an `Except.error` models the call raising).  The result triple is
`(result, attempts made, delays slept)`: `result` is `some (.ok v)` for a
normal return, `some (.error e)` for a re-raised exception, and `none` when
the loop falls through (never happens for a positive `max_retries`); each
slept delay is `min(base_delay * 2 ^ attempt, max_delay) + jitter attempt`,
recorded in seconds as a rational. -/
def backoffLoop (op : Nat → Except String α) (jitter : Nat → ℚ)
    (max_retries base_delay max_delay : Nat) :
    List Nat → Option (Except String α) × Nat × List ℚ
  | [] => (none, 0, [])
  | attempt :: rest =>
    match op attempt with
    | Except.ok v => (some (Except.ok v), 1, [])
    | Except.error e =>
      if attempt < max_retries - 1 then
        let sleep_time : ℚ :=
          min ((base_delay : ℚ) * 2 ^ attempt) (max_delay : ℚ) + jitter attempt
        let r := backoffLoop op jitter max_retries base_delay max_delay rest
        (r.1, r.2.1 + 1, sleep_time :: r.2.2)
      else
        (some (Except.error e), 1, [])

/-- Embedding of `exponential_backoff(func, **kwargs)` with
`max_retries = 5`, `base_delay = 1`, `max_delay = 32`. -/
def exponential_backoff (op : Nat → Except String α) (jitter : Nat → ℚ) :
    Option (Except String α) × Nat × List ℚ :=
  backoffLoop op jitter 5 1 32 (List.range 5)

/-- Eventual outcome of one retry-wrapped call: the value returned or the
exception re-raised after exhaustion.  (The `none` branch of the loop result
is unreachable for `max_retries = 5`; `getD` gives it an arbitrary value.) -/
def retryOutcome (op : Nat → Except String Unit) (jitter : Nat → ℚ) :
    Except String Unit :=
  (exponential_backoff op jitter).1.getD (Except.ok ())

/-- Fuel-indexed slicing loop: `sliceChunks fuel l` is
`[l[0:50], l[50:100], ...]` provided `fuel ≥` the number of slices (the fuel
only forces termination; `chunkList` instantiates it with `l.length`). -/
def sliceChunks (fuel : Nat) (l : List α) : List (List α) :=
  match fuel, l with
  | 0, _ => []
  | _, [] => []
  | fuel + 1, a :: rest => ((a :: rest).take 50) :: sliceChunks fuel ((a :: rest).drop 50)

/-- The successive slices `instance_ids[i:i+50]` for
`i in range(0, len(instance_ids), 50)` taken by `batch_start_instances` /
`batch_stop_instances`. -/
def chunkList (l : List α) : List (List α) := sliceChunks l.length l

/-- Observable events of one run: remote reads, remote mutations (tagged with
the region-bound client they go through) and log lines. -/
inductive Ev where
  | listRegions
  | listInstances (region : String)
  | evalInstance (instanceId : String) (time : Nat)
  | logInfo (msg : String)
  | logError (msg : String)
  | startCall (client : String) (ids : List String)
  | stopCall (client : String) (ids : List String)
deriving DecidableEq

/-- The AWS control plane as seen by one run: the outcome of
`describe_regions`, of each region's full (paginated) instance listing, and
the per-attempt outcome of each mutating `start_instances` /
`stop_instances` call (indexed by client, chunk and attempt number). -/
structure Env where
  regions : Except String (List String)
  instancesIn : String → Except String (List Instance)
  startAttempt : String → List String → Nat → Except String Unit
  stopAttempt : String → List String → Nat → Except String Unit

/-- Shared loop of the two batch mutators: walk the chunks in order, issue
one retry-wrapped call per chunk (`callResult c` is its eventual outcome,
`mk c` the corresponding trace event), and stop at the first chunk whose
retries are exhausted — its exception propagates out of the `for` loop.
Returns the overall outcome and the calls issued. -/
def batchRun (callResult : List String → Except String Unit)
    (mk : List String → Ev) : List (List String) → Except String Unit × List Ev
  | [] => (Except.ok (), [])
  | c :: rest =>
    match callResult c with
    | Except.error e => (Except.error e, [mk c])
    | Except.ok _ =>
      let r := batchRun callResult mk rest
      (r.1, mk c :: r.2)

/-- Embedding of `batch_start_instances(ec2_client, instance_ids)`: start the
instances in chunks of 50, each chunk through `exponential_backoff`. -/
def batch_start_instances (env : Env) (jitter : Nat → ℚ) (ec2_client : String)
    (instance_ids : List String) : Except String Unit × List Ev :=
  batchRun (fun c => retryOutcome (env.startAttempt ec2_client c) jitter)
    (fun c => Ev.startCall ec2_client c) (chunkList instance_ids)

/-- Embedding of `batch_stop_instances(ec2_client, instance_ids)`. -/
def batch_stop_instances (env : Env) (jitter : Nat → ℚ) (ec2_client : String)
    (instance_ids : List String) : Except String Unit × List Ev :=
  batchRun (fun c => retryOutcome (env.stopAttempt ec2_client c) jitter)
    (fun c => Ev.stopCall ec2_client c) (chunkList instance_ids)

/-- Result quadruple of `process_region`: the ids to start, the ids to stop,
the region-bound client handle (identified by its region name) and the
per-instance messages. -/
structure RegionResult where
  start_instances : List String
  stop_instances : List String
  ec2_client : String
  messages : List String
deriving DecidableEq

/-- Embedding of `get_all_regions()`. -/
def get_all_regions (env : Env) : Except String (List String) :=
  env.regions

/-- Embedding of `get_instances_in_region(region)`: the fully paginated
listing plus the region-bound client handle. -/
def get_instances_in_region (instancesIn : String → Except String (List Instance))
    (region : String) : Except String (List Instance × String) :=
  match instancesIn region with
  | Except.error e => Except.error e
  | Except.ok instances => Except.ok (instances, region)

/-- The evaluation loop of `process_region`: evaluate each instance in
listing order, appending its id to the start or stop list according to the
decision and its message to the message list. -/
def evalLoop (is_valid : String → Except String Bool)
    (cronMatch : String → Nat → Except String Bool) (current_time : Nat) :
    List Instance → List String × List String × List String
  | [] => ([], [], [])
  | inst :: rest =>
    let res := evaluate_instance is_valid cronMatch inst current_time
    let acc := evalLoop is_valid cronMatch current_time rest
    match res.1 with
    | some Action.start => (inst.instanceId :: acc.1, acc.2.1, res.2 :: acc.2.2)
    | some Action.stop => (acc.1, inst.instanceId :: acc.2.1, res.2 :: acc.2.2)
    | none => (acc.1, acc.2.1, res.2 :: acc.2.2)

/-- Embedding of `process_region(region, current_time)`: list the region's
instances, evaluate each, and partition the ids; an `Except.error` models the
listing call raising out of the worker. -/
def process_region (is_valid : String → Except String Bool)
    (cronMatch : String → Nat → Except String Bool)
    (instancesIn : String → Except String (List Instance))
    (region : String) (current_time : Nat) : Except String RegionResult :=
  match get_instances_in_region instancesIn region with
  | Except.error e => Except.error e
  | Except.ok (instances, ec2_client) =>
    let r := evalLoop is_valid cronMatch current_time instances
    Except.ok ⟨r.1, r.2.1, ec2_client, r.2.2⟩

/-- Read-phase events of one region worker: the listing, then one evaluation
per discovered instance; a worker whose listing raises is caught in the
orchestrator's `as_completed` loop and logged. -/
def regionReadEvs (env : Env) (current_time : Nat) (region : String) : List Ev :=
  match env.instancesIn region with
  | Except.error e =>
    [Ev.listInstances region,
     Ev.logError ("Error processing region " ++ region ++ ": " ++ e)]
  | Except.ok instances =>
    Ev.listInstances region ::
      instances.map (fun i => Ev.evalInstance i.instanceId current_time)

/-- Log line the orchestrator's final `as_completed` loop emits when a batch
task's future raised. -/
def batchErrLog : Except String Unit → List Ev
  | Except.error e => [Ev.logError ("Error executing batch operation: " ++ e)]
  | Except.ok _ => []

/-- Write-phase events contributed by one region: a failed worker contributes
nothing; otherwise its messages are logged and, for each non-empty id list, a
batch mutator task runs, whose own failure is caught by the orchestrator's
`as_completed` loop and logged. -/
def regionWriteEvs (is_valid : String → Except String Bool)
    (cronMatch : String → Nat → Except String Bool) (env : Env)
    (jitter : Nat → ℚ) (current_time : Nat) (region : String) : List Ev :=
  match process_region is_valid cronMatch env.instancesIn region current_time with
  | Except.error _ => []
  | Except.ok res =>
    res.messages.map Ev.logInfo
    ++ (if res.start_instances.isEmpty then []
        else
          let r := batch_start_instances env jitter res.ec2_client res.start_instances
          r.2 ++ batchErrLog r.1)
    ++ (if res.stop_instances.isEmpty then []
        else
          let r := batch_stop_instances env jitter res.ec2_client res.stop_instances
          r.2 ++ batchErrLog r.1)

/-- Event trace of a run whose discovery returned `regions`: the read phase
(all workers, joined at the first executor's block exit) strictly followed by
the write phase. -/
def run_trace (is_valid : String → Except String Bool)
    (cronMatch : String → Nat → Except String Bool) (env : Env)
    (jitter : Nat → ℚ) (current_time : Nat) (regions : List String) : List Ev :=
  Ev.listRegions :: (regions.map (regionReadEvs env current_time)).flatten
    ++ (regions.map (regionWriteEvs is_valid cronMatch env jitter current_time)).flatten

/-- Embedding of `lambda_handler(event, context)`: discover the regions (a
failure here propagates out of the handler), capture `datetime.now()` once
(`clock 0`), then produce the run's event trace.  Per-region and per-batch
failures are caught inside and only logged, so the handler returns normally
whenever discovery succeeded. -/
def lambda_handler (is_valid : String → Except String Bool)
    (cronMatch : String → Nat → Except String Bool) (env : Env)
    (jitter : Nat → ℚ) (clock : Nat → Nat) : Except String (List Ev) :=
  match get_all_regions env with
  | Except.error e => Except.error e
  | Except.ok regions =>
    let current_time := clock 0
    Except.ok (run_trace is_valid cronMatch env jitter current_time regions)

/-- Remote reads: region discovery, instance listings, evaluations. -/
def Ev.isRead : Ev → Bool
  | Ev.listRegions => true
  | Ev.listInstances _ => true
  | Ev.evalInstance _ _ => true
  | _ => false

/-- Remote mutations. -/
def Ev.isWrite : Ev → Bool
  | Ev.startCall _ _ => true
  | Ev.stopCall _ _ => true
  | _ => false

/-- Mutating calls issued through the given client handle. -/
def Ev.isCallFor (client : String) : Ev → Bool
  | Ev.startCall c _ => c == client
  | Ev.stopCall c _ => c == client
  | _ => false

/-- Stop calls, any client. -/
def Ev.isStopEv : Ev → Bool
  | Ev.stopCall _ _ => true
  | _ => false

/-- Start calls, any client. -/
def Ev.isStartEv : Ev → Bool
  | Ev.startCall _ _ => true
  | _ => false

/-- The mutating calls of a trace that go through the given client. -/
def writesFor (tr : List Ev) (client : String) : List Ev :=
  tr.filter (Ev.isCallFor client)

/-- An environment whose every remote call succeeds trivially (regions
empty, listings empty): used only to witness theorems at concrete inputs. -/
def envW : Env :=
  ⟨Except.ok [], fun _ => Except.ok [], fun _ _ _ => Except.ok (),
   fun _ _ _ => Except.ok ()⟩

/-- A concrete list of 120 identifiers, used only by witnesses. -/
def idsW : List String := (List.range 120).map (fun n => toString n)

/-- One-region environment used only by witnesses: region "r1" holds one
start-deciding instance and every mutating call succeeds. -/
def envW2 : Env :=
  ⟨Except.ok ["r1"],
   fun _ => Except.ok
     [⟨"i-1", [("WorksOnSchedule", "true"), ("WorkingExpression", "* * * * *")]⟩],
   fun _ _ _ => Except.ok (), fun _ _ _ => Except.ok ()⟩

/-- Concrete croniter oracles used only by witnesses: every expression is
valid, and only "* * * * *" matches. -/
def validW : String → Except String Bool := fun _ => Except.ok true

/-- Concrete match oracle for witnesses. -/
def matchW : String → Nat → Except String Bool :=
  fun e _ => if e = "* * * * *" then Except.ok true else Except.ok false

/-- Concrete three-instance listing used only by witnesses: one instance
decides start, one stop, one skip. -/
def instsW : List Instance :=
  [⟨"i-1", [("WorksOnSchedule", "true"), ("WorkingExpression", "* * * * *")]⟩,
   ⟨"i-2", [("WorksOnSchedule", "true"), ("WorkingExpression", "0 0 1 1 *")]⟩,
   ⟨"i-3", []⟩]

/-- The region result the worker produces on `instsW`, used only by
witnesses. -/
def resW : RegionResult :=
  ⟨["i-1"], ["i-2"], "eu-west-1",
   ["Starting instance i-1: Current time matches cron expression.",
    "Stopping instance i-2: Current time does not match cron expression.",
    "Skipping instance i-3: \x27WorksOnSchedule\x27 tag is missing or not true."]⟩


theorem sliceChunks_congr : ∀ (f g : Nat) (l : List α), l.length ≤ f → l.length ≤ g →
    sliceChunks f l = sliceChunks g l := by
  intro f
  induction f with
  | zero =>
    intro g l hf _
    have : l = [] := List.length_eq_zero.mp (Nat.le_zero.mp hf)
    subst this
    cases g <;> rfl
  | succ f ih =>
    intro g l hf hg
    cases l with
    | nil => cases g <;> rfl
    | cons a r =>
      cases g with
      | zero => simp at hg
      | succ g =>
        simp only [List.length_cons] at hf hg
        simp only [sliceChunks]
        congr 1
        apply ih
        · simp only [List.length_drop, List.length_cons]
          omega
        · simp only [List.length_drop, List.length_cons]
          omega

theorem chunkList_cons (a : α) (r : List α) :
    chunkList (a :: r) = (a :: r).take 50 :: chunkList ((a :: r).drop 50) := by
  show sliceChunks (r.length + 1) (a :: r) = _
  simp only [sliceChunks]
  congr 1
  apply sliceChunks_congr
  · simp only [List.length_drop, List.length_cons]; omega
  · exact Nat.le_refl _

theorem chunkList_flatten (l : List α) : (chunkList l).flatten = l := by
  generalize hn : l.length = n
  induction n using Nat.strong_induction_on generalizing l with
  | _ n ih =>
    cases l with
    | nil => rfl
    | cons a r =>
      simp only [List.length_cons] at hn
      have hlt : ((a :: r).drop 50).length < n := by
        simp only [List.length_drop, List.length_cons]; omega
      rw [chunkList_cons, List.flatten_cons, ih _ hlt _ rfl, List.take_append_drop]

theorem chunkList_length (l : List α) : (chunkList l).length = (l.length + 49) / 50 := by
  generalize hn : l.length = n
  induction n using Nat.strong_induction_on generalizing l with
  | _ n ih =>
    cases l with
    | nil =>
      subst hn
      simp [chunkList, sliceChunks]
    | cons a r =>
      simp only [List.length_cons] at hn
      have hlt : ((a :: r).drop 50).length < n := by
        simp only [List.length_drop, List.length_cons]; omega
      rw [chunkList_cons, List.length_cons, ih _ hlt _ rfl]
      simp only [List.length_drop, List.length_cons]
      omega

theorem chunkList_le50 (l : List α) : ∀ c ∈ chunkList l, c.length ≤ 50 := by
  generalize hn : l.length = n
  induction n using Nat.strong_induction_on generalizing l with
  | _ n ih =>
    cases l with
    | nil => intro c hc; simp [chunkList, sliceChunks] at hc
    | cons a r =>
      simp only [List.length_cons] at hn
      have hlt : ((a :: r).drop 50).length < n := by
        simp only [List.length_drop, List.length_cons]; omega
      rw [chunkList_cons]
      intro c hc
      rcases List.mem_cons.mp hc with h | h
      · subst h
        simp [List.length_take]
      · exact ih _ hlt _ rfl c h

theorem chunkList_map_length_congr : ∀ (l : List α) (l2 : List β),
    l.length = l2.length →
    (chunkList l).map List.length = (chunkList l2).map List.length := by
  intro l
  generalize hn : l.length = n
  induction n using Nat.strong_induction_on generalizing l with
  | _ n ih =>
    intro l2 hlen
    cases l with
    | nil =>
      have h0 : l2.length = 0 := by
        simp only [List.length_nil] at hn
        omega
      have : l2 = [] := List.length_eq_zero.mp h0
      subst this
      rfl
    | cons a r =>
      cases l2 with
      | nil =>
        simp only [List.length_cons] at hn
        simp only [List.length_nil] at hlen
        omega
      | cons b r2 =>
        simp only [List.length_cons] at hn hlen
        have hlt : ((a :: r).drop 50).length < n := by
          simp only [List.length_drop, List.length_cons]; omega
        rw [chunkList_cons, chunkList_cons]
        simp only [List.map_cons]
        congr 1
        · simp only [List.length_take, List.length_cons]
          omega
        · apply ih _ hlt _ rfl
          simp only [List.length_drop, List.length_cons]
          omega

theorem retryOutcome_first_ok (op : Nat → Except String Unit) (jitter : Nat → ℚ)
    (h : op 0 = Except.ok ()) : retryOutcome op jitter = Except.ok () := by
  have h5 : List.range 5 = [0, 1, 2, 3, 4] := rfl
  simp [retryOutcome, exponential_backoff, h5, backoffLoop, h]

theorem batchRun_all_ok (callResult : List String → Except String Unit)
    (mk : List String → Ev) :
    ∀ chunks : List (List String), (∀ c ∈ chunks, callResult c = Except.ok ()) →
    batchRun callResult mk chunks = (Except.ok (), chunks.map mk) := by
  intro chunks
  induction chunks with
  | nil => intro _; rfl
  | cons c rest ih =>
    intro h
    have hc := h c (List.mem_cons_self _ _)
    simp [batchRun, hc, ih (fun d hd => h d (List.mem_cons_of_mem _ hd))]

/-- C3: with every wrapped mutating call succeeding, the two batch mutators
issue exactly ceil(N/50) calls over a list of N identifiers; each call
carries a contiguous slice of at most 50 ids, the slices in issue order
concatenate back to exactly the input list, and 120 ids produce chunk sizes
50, 50, 20. -/
theorem batch_chunking_exact (env : Env) (jitter : Nat → ℚ) (client : String)
    (ids : List String)
    (hstart : ∀ c a, env.startAttempt client c a = Except.ok ())
    (hstop : ∀ c a, env.stopAttempt client c a = Except.ok ()) :
    (batch_start_instances env jitter client ids).2 =
      (chunkList ids).map (Ev.startCall client) ∧
    (batch_stop_instances env jitter client ids).2 =
      (chunkList ids).map (Ev.stopCall client) ∧
    (chunkList ids).length = (ids.length + 49) / 50 ∧
    (∀ c ∈ chunkList ids, c.length ≤ 50) ∧
    (chunkList ids).flatten = ids ∧
    (ids.length = 120 → (chunkList ids).map List.length = [50, 50, 20]) := by
  refine ⟨?_, ?_, chunkList_length ids, chunkList_le50 ids, chunkList_flatten ids, ?_⟩
  · rw [batch_start_instances,
      batchRun_all_ok _ _ _ (fun c _ => retryOutcome_first_ok _ _ (hstart c 0))]
  · rw [batch_stop_instances,
      batchRun_all_ok _ _ _ (fun c _ => retryOutcome_first_ok _ _ (hstop c 0))]
  · intro h120
    rw [chunkList_map_length_congr ids (List.range 120) (by simp [h120])]
    decide


/-- Witness for C3: 120 identifiers yield exactly 3 start calls with chunk
sizes 50, 50, 20. -/
theorem batch_chunking_exact_witness :
    ((batch_start_instances envW (fun _ => 0) "us-east-1" idsW).2).length = 3 ∧
    (chunkList idsW).map List.length = [50, 50, 20] := by
  have h := batch_chunking_exact envW (fun _ => 0) "us-east-1" idsW
    (fun _ _ => rfl) (fun _ _ => rfl)
  constructor
  · rw [h.1, List.length_map, h.2.2.1]
    rfl
  · exact h.2.2.2.2.2 (by rfl)

/-- C4: the retry executor returns the first success and makes exactly k+1
attempts when the first k attempts fail with k < 5; when every attempt
fails it makes exactly 5 attempts and re-raises the fifth failure
unchanged. -/
theorem exponential_backoff_attempts (op : Nat → Except String α) (jitter : Nat → ℚ) :
    (∀ (k : Nat) (v : α), k < 5 → (∀ i, i < k → ∃ e, op i = Except.error e) →
      op k = Except.ok v →
      (exponential_backoff op jitter).1 = some (Except.ok v) ∧
      (exponential_backoff op jitter).2.1 = k + 1) ∧
    (∀ e : String, (∀ i, i < 4 → ∃ e2, op i = Except.error e2) →
      op 4 = Except.error e →
      (exponential_backoff op jitter).1 = some (Except.error e) ∧
      (exponential_backoff op jitter).2.1 = 5) := by
  have h5 : List.range 5 = [0, 1, 2, 3, 4] := rfl
  constructor
  · intro k v hk hfail hok
    interval_cases k
    · simp [exponential_backoff, h5, backoffLoop, hok]
    · obtain ⟨e0, h0⟩ := hfail 0 (by omega)
      simp [exponential_backoff, h5, backoffLoop, h0, hok]
    · obtain ⟨e0, h0⟩ := hfail 0 (by omega)
      obtain ⟨e1, h1⟩ := hfail 1 (by omega)
      simp [exponential_backoff, h5, backoffLoop, h0, h1, hok]
    · obtain ⟨e0, h0⟩ := hfail 0 (by omega)
      obtain ⟨e1, h1⟩ := hfail 1 (by omega)
      obtain ⟨e2, h2⟩ := hfail 2 (by omega)
      simp [exponential_backoff, h5, backoffLoop, h0, h1, h2, hok]
    · obtain ⟨e0, h0⟩ := hfail 0 (by omega)
      obtain ⟨e1, h1⟩ := hfail 1 (by omega)
      obtain ⟨e2, h2⟩ := hfail 2 (by omega)
      obtain ⟨e3, h3⟩ := hfail 3 (by omega)
      simp [exponential_backoff, h5, backoffLoop, h0, h1, h2, h3, hok]
  · intro e hfail h4
    obtain ⟨e0, h0⟩ := hfail 0 (by omega)
    obtain ⟨e1, h1⟩ := hfail 1 (by omega)
    obtain ⟨e2, h2⟩ := hfail 2 (by omega)
    obtain ⟨e3, h3⟩ := hfail 3 (by omega)
    simp [exponential_backoff, h5, backoffLoop, h0, h1, h2, h3, h4]

/-- Witness for C4: an operation failing on attempts 0 and 1 then succeeding
returns the success after exactly 3 attempts. -/
theorem exponential_backoff_attempts_witness :
    (exponential_backoff
        (fun i => if i < 2 then Except.error "e" else Except.ok ()) (fun _ => 0)).1 =
      some (Except.ok ()) ∧
    (exponential_backoff
        (fun i => if i < 2 then Except.error "e" else Except.ok ()) (fun _ => 0)).2.1 = 3 :=
  (exponential_backoff_attempts
      (fun i => if i < 2 then Except.error "e" else Except.ok ()) (fun _ => 0)).1
    2 () (by norm_num) (fun i hi => ⟨"e", by interval_cases i <;> rfl⟩) rfl

/-- C5 counterexample: for an operation failing on every attempt the slept
delays (taking zero jitter) total 15 seconds, not the 63 seconds the claim
computes — only four sleeps happen (after attempts 0 to 3; the fifth failure
re-raises without sleeping), so the deterministic parts are 1+2+4+8. -/
theorem backoff_total_delay_not_63 :
    (exponential_backoff (fun _ => (Except.error "err" : Except String Unit))
      (fun _ => 0)).2.2.sum ≠ 63 ∧
    (exponential_backoff (fun _ => (Except.error "err" : Except String Unit))
      (fun _ => 0)).2.2.sum = 15 := by
  have h5 : List.range 5 = [0, 1, 2, 3, 4] := rfl
  constructor
  · simp [exponential_backoff, h5, backoffLoop]
    norm_num [min_def]
  · simp [exponential_backoff, h5, backoffLoop]
    norm_num [min_def]

/-- C5 as amended: the delay slept after failed attempt i (i = 0..3) is
min(1 * 2^i, 32) + jitter(i) seconds, so for an operation failing on every
attempt the four slept delays are 1, 2, 4, 8 plus jitter and the accumulated
deterministic pre-jitter total is 15 seconds (the 32-second cap and the
claimed 63-second total are never reached: no sleep follows the fifth and
final failure). -/
theorem backoff_delays_amended (op : Nat → Except String α) (jitter : Nat → ℚ)
    (e : String)
    (hfail : ∀ i, i < 4 → ∃ e2, op i = Except.error e2)
    (h4 : op 4 = Except.error e) :
    (exponential_backoff op jitter).2.2 =
      [1 + jitter 0, 2 + jitter 1, 4 + jitter 2, 8 + jitter 3] ∧
    (exponential_backoff op jitter).2.2.sum =
      15 + (jitter 0 + jitter 1 + jitter 2 + jitter 3) := by
  obtain ⟨e0, h0⟩ := hfail 0 (by omega)
  obtain ⟨e1, h1⟩ := hfail 1 (by omega)
  obtain ⟨e2, h2⟩ := hfail 2 (by omega)
  obtain ⟨e3, h3⟩ := hfail 3 (by omega)
  have h5 : List.range 5 = [0, 1, 2, 3, 4] := rfl
  constructor
  · simp [exponential_backoff, h5, backoffLoop, h0, h1, h2, h3, h4]
    norm_num
  · simp [exponential_backoff, h5, backoffLoop, h0, h1, h2, h3, h4]
    norm_num [min_def]
    ring

/-- Witness for the amended C5 at a concrete always-failing operation with
constant jitter 1/2. -/
theorem backoff_delays_amended_witness :
    (exponential_backoff (fun _ => (Except.error "x" : Except String Unit))
      (fun _ => (1 : ℚ) / 2)).2.2 =
      [1 + (1 : ℚ) / 2, 2 + (1 : ℚ) / 2, 4 + (1 : ℚ) / 2, 8 + (1 : ℚ) / 2] :=
  (backoff_delays_amended (fun _ => (Except.error "x" : Except String Unit))
    (fun _ => (1 : ℚ) / 2) "x" (fun _ _ => ⟨"x", rfl⟩) rfl).1

/-- C1: for an instance whose WorksOnSchedule tag is case-insensitively
"true" and whose WorkingExpression tag is a syntactically valid cron
expression, `evaluate_instance` decides start iff `now` matches the
expression (a single point-in-time match, delivered by the croniter match
oracle), decides stop on a non-match, and the decision is a deterministic
function of the tag mapping and `now` alone (the instance id plays no role
in the decision). -/
theorem evaluate_start_iff_match (V : String → Except String Bool)
    (M : String → Nat → Except String Bool) (inst : Instance)
    (now : Nat) (w expr : String) (m : Bool)
    (hw : tagsGet inst.tags "WorksOnSchedule" = some w)
    (hwt : strLower w = "true")
    (he : tagsGet inst.tags "WorkingExpression" = some expr)
    (hne : expr ≠ "")
    (hv : V expr = Except.ok true)
    (hm : M expr now = Except.ok m) :
    ((evaluate_instance V M inst now).1 = some Action.start ↔ m = true) ∧
    (m = false → (evaluate_instance V M inst now).1 = some Action.stop) ∧
    (∀ inst2 : Instance, inst2.tags = inst.tags →
      (evaluate_instance V M inst2 now).1 = (evaluate_instance V M inst now).1) := by
  refine ⟨?_, ?_, ?_⟩
  · simp [evaluate_instance, hw, hwt, he, hne, hv, hm]
    cases m <;> simp
  · intro hmf
    subst hmf
    simp [evaluate_instance, hw, hwt, he, hne, hv, hm]
  · intro inst2 htags
    simp [evaluate_instance, htags, hw, hwt, he, hne, hv, hm]
    cases m <;> simp

/-- Witness for C1 at a concrete instance: enabled, valid expression,
matching time, so the decision is start. -/
theorem evaluate_start_iff_match_witness :
    (evaluate_instance (fun _ => Except.ok true) (fun _ _ => Except.ok true)
      ⟨"i-0a1", [("WorksOnSchedule", "true"), ("WorkingExpression", "* * * * *")]⟩
      0).1 = some Action.start :=
  (evaluate_start_iff_match (fun _ => Except.ok true) (fun _ _ => Except.ok true)
    ⟨"i-0a1", [("WorksOnSchedule", "true"), ("WorkingExpression", "* * * * *")]⟩
    0 "true" "* * * * *" true (by decide) (by decide) (by decide) (by decide)
    rfl rfl).1.mpr rfl

/-- C2: the three skip rules of `evaluate_instance`, in source order with the
first matching rule winning: (1) WorksOnSchedule missing or not
case-insensitively "true" forces skip regardless of the expression tag;
(2) otherwise WorkingExpression missing or empty forces skip regardless of
its validity; (3) otherwise a syntactically invalid expression forces skip
with a reason that contains the original expression verbatim. -/
theorem evaluate_skip_rules (V : String → Except String Bool)
    (M : String → Nat → Except String Bool) (inst : Instance) (now : Nat) :
    ((tagsGet inst.tags "WorksOnSchedule" = none ∨
      (∃ w, tagsGet inst.tags "WorksOnSchedule" = some w ∧ strLower w ≠ "true")) →
      evaluate_instance V M inst now =
        (none, "Skipping instance " ++ inst.instanceId ++
          ": \x27WorksOnSchedule\x27 tag is missing or not true.")) ∧
    (∀ w, tagsGet inst.tags "WorksOnSchedule" = some w → strLower w = "true" →
      (tagsGet inst.tags "WorkingExpression" = none ∨
       tagsGet inst.tags "WorkingExpression" = some "") →
      evaluate_instance V M inst now =
        (none, "Skipping instance " ++ inst.instanceId ++
          ": \x27WorkingExpression\x27 tag is missing or empty.")) ∧
    (∀ w expr, tagsGet inst.tags "WorksOnSchedule" = some w → strLower w = "true" →
      tagsGet inst.tags "WorkingExpression" = some expr → expr ≠ "" →
      V expr = Except.ok false →
      (evaluate_instance V M inst now).1 = none ∧
      ∃ pre post, (evaluate_instance V M inst now).2 = pre ++ expr ++ post) := by
  refine ⟨?_, ?_, ?_⟩
  · rintro (hw | ⟨w, hw, hwt⟩)
    · simp [evaluate_instance, hw]
    · simp [evaluate_instance, hw, hwt]
  · intro w hw hwt he
    rcases he with he | he <;> simp [evaluate_instance, hw, hwt, he]
  · intro w expr hw hwt he hne hv
    refine ⟨by simp [evaluate_instance, hw, hwt, he, hne, hv], ?_⟩
    refine ⟨"Skipping instance " ++ inst.instanceId ++
      ": Invalid cron expression \x27", "\x27.", ?_⟩
    simp [evaluate_instance, hw, hwt, he, hne, hv]

/-- Witness for C2 at a concrete instance: disabled schedule tag forces
skip with the WorksOnSchedule reason, even with a present expression. -/
theorem evaluate_skip_rules_witness :
    evaluate_instance (fun _ => Except.ok true) (fun _ _ => Except.ok true)
      ⟨"i-0b2", [("WorksOnSchedule", "false"), ("WorkingExpression", "* * * * *")]⟩ 0 =
      (none, "Skipping instance i-0b2" ++
        ": \x27WorksOnSchedule\x27 tag is missing or not true.") :=
  (evaluate_skip_rules (fun _ => Except.ok true) (fun _ _ => Except.ok true)
    ⟨"i-0b2", [("WorksOnSchedule", "false"), ("WorkingExpression", "* * * * *")]⟩
    0).1 (Or.inr ⟨"false", by decide, by decide⟩)

/-- C6: `evaluate_instance` is a total function of its arguments (it can not
raise: every branch returns a pair), and when a croniter oracle call raises
(the validity check or the match test, the two calls the source's try block
covers), the exception is converted to a skip decision whose reason embeds
the error text. -/
theorem evaluate_errors_to_skip (V : String → Except String Bool)
    (M : String → Nat → Except String Bool) (inst : Instance)
    (now : Nat) (w expr err : String)
    (hw : tagsGet inst.tags "WorksOnSchedule" = some w)
    (hwt : strLower w = "true")
    (he : tagsGet inst.tags "WorkingExpression" = some expr)
    (hne : expr ≠ "")
    (herr : V expr = Except.error err ∨
      (V expr = Except.ok true ∧ M expr now = Except.error err)) :
    evaluate_instance V M inst now =
      (none, "Error evaluating instance " ++ inst.instanceId ++ ": " ++ err) ∧
    ∃ pre, (evaluate_instance V M inst now).2 = pre ++ err := by
  have key : evaluate_instance V M inst now =
      (none, "Error evaluating instance " ++ inst.instanceId ++ ": " ++ err) := by
    rcases herr with hv | ⟨hv, hm⟩
    · simp [evaluate_instance, hw, hwt, he, hne, hv]
    · simp [evaluate_instance, hw, hwt, he, hne, hv, hm]
  exact ⟨key, "Error evaluating instance " ++ inst.instanceId ++ ": ", by rw [key]⟩

/-- Witness for C6: a match oracle that raises is converted to a skip with
the error text in the reason. -/
theorem evaluate_errors_to_skip_witness :
    evaluate_instance (fun _ => Except.ok true) (fun _ _ => Except.error "boom")
      ⟨"i-0c3", [("WorksOnSchedule", "TRUE"), ("WorkingExpression", "* * * * *")]⟩ 5 =
      (none, "Error evaluating instance i-0c3" ++ ": " ++ "boom") :=
  (evaluate_errors_to_skip (fun _ => Except.ok true) (fun _ _ => Except.error "boom")
    ⟨"i-0c3", [("WorksOnSchedule", "TRUE"), ("WorkingExpression", "* * * * *")]⟩
    5 "TRUE" "* * * * *" "boom" (by decide) (by decide) (by decide) (by decide)
    (Or.inr ⟨rfl, rfl⟩)).1

theorem evalLoop_spec (V : String → Except String Bool)
    (M : String → Nat → Except String Bool) (now : Nat) (insts : List Instance) :
    (evalLoop V M now insts).1 =
      (insts.filter
        (fun i => decide ((evaluate_instance V M i now).1 = some Action.start))).map
        (fun i => i.instanceId) ∧
    (evalLoop V M now insts).2.1 =
      (insts.filter
        (fun i => decide ((evaluate_instance V M i now).1 = some Action.stop))).map
        (fun i => i.instanceId) ∧
    (evalLoop V M now insts).2.2 = insts.map (fun i => (evaluate_instance V M i now).2) := by
  induction insts with
  | nil => exact ⟨rfl, rfl, rfl⟩
  | cons inst rest ih =>
    rcases h : (evaluate_instance V M inst now).1 with _ | a
    · simp [evalLoop, h, List.filter_cons, ih.1, ih.2.1, ih.2.2]
    · cases a
      · simp [evalLoop, h, List.filter_cons, ih.1, ih.2.1, ih.2.2]
      · simp [evalLoop, h, List.filter_cons, ih.1, ih.2.1, ih.2.2]

/-- C7: a successful region worker partitions the listed instances by their
decision: the start list is exactly the ids of the instances deciding start,
in discovery order, the stop list exactly those deciding stop, in discovery
order (so skipped instances are in neither), the messages follow listing
order, the returned client is the region-bound one, and with pairwise
distinct instance ids the two lists are disjoint. -/
theorem process_region_partition (V : String → Except String Bool)
    (M : String → Nat → Except String Bool)
    (instancesIn : String → Except String (List Instance))
    (region : String) (now : Nat) (insts : List Instance) (res : RegionResult)
    (hls : instancesIn region = Except.ok insts)
    (hpr : process_region V M instancesIn region now = Except.ok res) :
    res.start_instances = (insts.filter
        (fun i => decide ((evaluate_instance V M i now).1 = some Action.start))).map
        (fun i => i.instanceId) ∧
    res.stop_instances = (insts.filter
        (fun i => decide ((evaluate_instance V M i now).1 = some Action.stop))).map
        (fun i => i.instanceId) ∧
    res.messages = insts.map (fun i => (evaluate_instance V M i now).2) ∧
    res.ec2_client = region ∧
    ((insts.map (fun i => i.instanceId)).Nodup →
      ∀ x ∈ res.start_instances, x ∉ res.stop_instances) := by
  simp only [process_region, get_instances_in_region, hls] at hpr
  obtain rfl : (⟨(evalLoop V M now insts).1, (evalLoop V M now insts).2.1, region,
      (evalLoop V M now insts).2.2⟩ : RegionResult) = res := by
    cases hpr
    rfl
  have hs := evalLoop_spec V M now insts
  refine ⟨hs.1, hs.2.1, hs.2.2, rfl, ?_⟩
  intro hnd x hxs hxt
  rw [hs.1] at hxs
  rw [hs.2.1] at hxt
  obtain ⟨i1, hi1, hx1⟩ := List.mem_map.mp hxs
  obtain ⟨i2, hi2, hx2⟩ := List.mem_map.mp hxt
  obtain ⟨hi1m, hP1⟩ := List.mem_filter.mp hi1
  obtain ⟨hi2m, hP2⟩ := List.mem_filter.mp hi2
  have hid : i1.instanceId = i2.instanceId := by rw [hx1, hx2]
  have heq : i1 = i2 := List.inj_on_of_nodup_map hnd hi1m hi2m hid
  subst heq
  have h1 := of_decide_eq_true hP1
  have h2 := of_decide_eq_true hP2
  rw [h1] at h2
  exact Option.noConfusion h2 (fun h => Action.noConfusion h)


/-- Witness for C7 at a concrete region of three instances deciding start,
stop and skip respectively. -/
theorem process_region_partition_witness :
    resW.start_instances = (instsW.filter
      (fun i => decide ((evaluate_instance validW matchW i 0).1 = some Action.start))).map
      (fun i => i.instanceId) ∧
    resW.stop_instances = (instsW.filter
      (fun i => decide ((evaluate_instance validW matchW i 0).1 = some Action.stop))).map
      (fun i => i.instanceId) ∧
    (∀ x ∈ resW.start_instances, x ∉ resW.stop_instances) := by
  have hpr : process_region validW matchW (fun _ => Except.ok instsW)
      "eu-west-1" 0 = Except.ok resW := by
    show Except.ok (⟨(evalLoop validW matchW 0 instsW).1,
      (evalLoop validW matchW 0 instsW).2.1, "eu-west-1",
      (evalLoop validW matchW 0 instsW).2.2⟩ : RegionResult) = Except.ok resW
    exact congrArg Except.ok (by decide)
  have h := process_region_partition validW matchW (fun _ => Except.ok instsW)
    "eu-west-1" 0 instsW resW rfl hpr
  exact ⟨h.1, h.2.1, h.2.2.2.2 (by decide)⟩

theorem process_region_congr (V : String → Except String Bool)
    (M : String → Nat → Except String Bool)
    (f g : String → Except String (List Instance)) (r : String) (t : Nat)
    (h : f r = g r) : process_region V M f r t = process_region V M g r t := by
  simp only [process_region, get_instances_in_region, h]

theorem process_region_client (V : String → Except String Bool)
    (M : String → Nat → Except String Bool)
    (f : String → Except String (List Instance)) (r : String) (t : Nat)
    (res : RegionResult) (hpr : process_region V M f r t = Except.ok res) :
    res.ec2_client = r := by
  cases h : f r with
  | error e =>
    simp only [process_region, get_instances_in_region, h] at hpr
    cases hpr
  | ok insts =>
    simp only [process_region, get_instances_in_region, h] at hpr
    cases hpr
    rfl

theorem batchRun_events_shape (callResult : List String → Except String Unit)
    (mk : List String → Ev) :
    ∀ chunks, ∀ e ∈ (batchRun callResult mk chunks).2, ∃ c, e = mk c := by
  intro chunks
  induction chunks with
  | nil => intro e he; simp [batchRun] at he
  | cons c rest ih =>
    intro e he
    cases h : callResult c with
    | error e2 =>
      simp only [batchRun, h] at he
      simp at he
      exact ⟨c, he⟩
    | ok u =>
      simp only [batchRun, h] at he
      rcases List.mem_cons.mp he with h1 | h2
      · exact ⟨c, h1⟩
      · exact ih e h2

theorem mem_batchErrLog (o : Except String Unit) (e : Ev) (he : e ∈ batchErrLog o) :
    ∃ m, e = Ev.logError m := by
  cases o with
  | error er =>
    simp [batchErrLog] at he
    exact ⟨_, he⟩
  | ok u => simp [batchErrLog] at he

theorem mem_regionReadEvs (env : Env) (now : Nat) (r : String) (e : Ev)
    (he : e ∈ regionReadEvs env now r) :
    e = Ev.listInstances r ∨ (∃ m, e = Ev.logError m) ∨
    (∃ s, e = Ev.evalInstance s now) := by
  cases h : env.instancesIn r with
  | error err =>
    simp only [regionReadEvs, h] at he
    rcases List.mem_cons.mp he with h1 | h2
    · exact Or.inl h1
    · simp at h2
      exact Or.inr (Or.inl ⟨_, h2⟩)
  | ok insts =>
    simp only [regionReadEvs, h] at he
    rcases List.mem_cons.mp he with h1 | h2
    · exact Or.inl h1
    · obtain ⟨i, _, hi⟩ := List.mem_map.mp h2
      exact Or.inr (Or.inr ⟨i.instanceId, hi.symm⟩)

theorem mem_regionWriteEvs (V : String → Except String Bool)
    (M : String → Nat → Except String Bool) (env : Env) (jitter : Nat → ℚ)
    (now : Nat) (r : String) (e : Ev)
    (he : e ∈ regionWriteEvs V M env jitter now r) :
    (∃ m, e = Ev.logInfo m) ∨ (∃ m, e = Ev.logError m) ∨
    (∃ ids, e = Ev.startCall r ids) ∨ (∃ ids, e = Ev.stopCall r ids) := by
  cases hpr : process_region V M env.instancesIn r now with
  | error err => simp [regionWriteEvs, hpr] at he
  | ok res =>
    have hcl : res.ec2_client = r := process_region_client V M _ r now res hpr
    simp only [regionWriteEvs, hpr] at he
    rcases List.mem_append.mp he with h12 | h3
    · rcases List.mem_append.mp h12 with h1 | h2
      · obtain ⟨m, _, hm⟩ := List.mem_map.mp h1
        exact Or.inl ⟨m, hm.symm⟩
      · by_cases hse : res.start_instances.isEmpty
        · simp [hse] at h2
        · simp only [hse, if_false, Bool.false_eq_true] at h2
          rcases List.mem_append.mp h2 with hb | hl
          · obtain ⟨c, hc⟩ := batchRun_events_shape _ _ _ e hb
            subst hc
            rw [hcl]
            exact Or.inr (Or.inr (Or.inl ⟨c, rfl⟩))
          · obtain ⟨m, hm⟩ := mem_batchErrLog _ e hl
            exact Or.inr (Or.inl ⟨m, hm⟩)
    · by_cases hse : res.stop_instances.isEmpty
      · simp [hse] at h3
      · simp only [hse, if_false, Bool.false_eq_true] at h3
        rcases List.mem_append.mp h3 with hb | hl
        · obtain ⟨c, hc⟩ := batchRun_events_shape _ _ _ e hb
          subst hc
          rw [hcl]
          exact Or.inr (Or.inr (Or.inr ⟨c, rfl⟩))
        · obtain ⟨m, hm⟩ := mem_batchErrLog _ e hl
          exact Or.inr (Or.inl ⟨m, hm⟩)

/-- C9: within one run the read phase strictly precedes the write phase:
in the run's event trace every mutating start/stop call comes after every
read event (region discovery, instance listing, instance evaluation) — the
first executor block is joined before the mutating block begins. -/
theorem run_reads_before_writes (V : String → Except String Bool)
    (M : String → Nat → Except String Bool) (env : Env) (jitter : Nat → ℚ)
    (clock : Nat → Nat) (tr : List Ev)
    (h : lambda_handler V M env jitter clock = Except.ok tr) :
    ∀ i j (hi : i < tr.length) (hj : j < tr.length),
      (tr.get ⟨i, hi⟩).isWrite = true → (tr.get ⟨j, hj⟩).isRead = true → j < i := by
  cases hreg : env.regions with
  | error e => simp [lambda_handler, get_all_regions, hreg] at h
  | ok rs =>
    simp only [lambda_handler, get_all_regions, hreg] at h
    injection h with h
    subst h
    intro i j hi hj hw hr
    rw [List.get_eq_getElem] at hw hr
    set A := Ev.listRegions :: (rs.map (regionReadEvs env (clock 0))).flatten with hA
    set B := (rs.map (regionWriteEvs V M env jitter (clock 0))).flatten with hB
    have htr : run_trace V M env jitter (clock 0) rs = A ++ B := by
      rw [run_trace, hA, hB, List.cons_append]
    have noWriteA : ∀ e ∈ A, e.isWrite = false := by
      intro e he
      rcases List.mem_cons.mp he with h1 | h2
      · subst h1; rfl
      · obtain ⟨l, hl, hel⟩ := List.mem_flatten.mp h2
        obtain ⟨r, _, rfl⟩ := List.mem_map.mp hl
        rcases mem_regionReadEvs env (clock 0) r e hel with h3 | ⟨m, h3⟩ | ⟨s, h3⟩ <;>
          (subst h3; rfl)
    have noReadB : ∀ e ∈ B, e.isRead = false := by
      intro e he
      obtain ⟨l, hl, hel⟩ := List.mem_flatten.mp he
      obtain ⟨r, _, rfl⟩ := List.mem_map.mp hl
      rcases mem_regionWriteEvs V M env jitter (clock 0) r e hel with
        ⟨m, h3⟩ | ⟨m, h3⟩ | ⟨ids, h3⟩ | ⟨ids, h3⟩ <;> (subst h3; rfl)
    have hiA : A.length ≤ i := by
      by_contra hlt
      push_neg at hlt
      have e1 : (run_trace V M env jitter (clock 0) rs)[i] = A[i] := by
        rw [List.getElem_of_eq htr hi]
        exact List.getElem_append_left hlt
      rw [e1] at hw
      have hmem := noWriteA _ (List.getElem_mem hlt)
      rw [hw] at hmem
      cases hmem
    have hjA : j < A.length := by
      by_contra hge
      push_neg at hge
      have hjb : j - A.length < B.length := by
        have := hj
        rw [htr, List.length_append] at this
        omega
      have e2 : (run_trace V M env jitter (clock 0) rs)[j] = B[j - A.length] := by
        rw [List.getElem_of_eq htr hj]
        exact List.getElem_append_right hge
      rw [e2] at hr
      have hmem := noReadB _ (List.getElem_mem hjb)
      rw [hr] at hmem
      cases hmem
    omega

/-- Witness for C9 on a one-region, one-instance run: the start call (index
4 of the trace) comes after the instance listing (index 1). -/
theorem run_reads_before_writes_witness : (1 : Nat) < 4 := by
  have htr : lambda_handler validW matchW envW2 (fun _ => 0) (fun _ => 0) =
      Except.ok
        [Ev.listRegions, Ev.listInstances "r1", Ev.evalInstance "i-1" 0,
         Ev.logInfo "Starting instance i-1: Current time matches cron expression.",
         Ev.startCall "r1" ["i-1"]] := by
    show Except.ok (run_trace validW matchW envW2 (fun _ => 0) 0 ["r1"]) = _
    exact congrArg Except.ok (by decide)
  exact run_reads_before_writes validW matchW envW2 (fun _ => 0) (fun _ => 0) _
    htr 4 1 (by decide) (by decide) (by decide) (by decide)

/-- C10: the run captures `datetime.now()` exactly once, after discovery and
before any region is processed: the handler's behaviour depends on the clock
only through its first reading, and every evaluation event in the trace
carries that one timestamp. -/
theorem single_timestamp_per_run (V : String → Except String Bool)
    (M : String → Nat → Except String Bool) (env : Env) (jitter : Nat → ℚ)
    (clock clock2 : Nat → Nat) (hc : clock 0 = clock2 0) :
    lambda_handler V M env jitter clock = lambda_handler V M env jitter clock2 ∧
    (∀ tr, lambda_handler V M env jitter clock = Except.ok tr →
      ∀ s t, Ev.evalInstance s t ∈ tr → t = clock 0) := by
  constructor
  · cases hreg : env.regions with
    | error e => simp [lambda_handler, get_all_regions, hreg]
    | ok rs => simp [lambda_handler, get_all_regions, hreg, hc]
  · intro tr h s t hmem
    cases hreg : env.regions with
    | error e => simp [lambda_handler, get_all_regions, hreg] at h
    | ok rs =>
      simp only [lambda_handler, get_all_regions, hreg] at h
      injection h with h
      subst h
      rcases List.mem_cons.mp hmem with h1 | h2
      · simp at h1
      · rcases List.mem_append.mp h2 with hrd | hwr
        · obtain ⟨l, hl, hel⟩ := List.mem_flatten.mp hrd
          obtain ⟨r, _, rfl⟩ := List.mem_map.mp hl
          rcases mem_regionReadEvs env (clock 0) r _ hel with h3 | ⟨m, h3⟩ | ⟨s2, h3⟩
          · simp at h3
          · simp at h3
          · injection h3 with h4 h5
        · obtain ⟨l, hl, hel⟩ := List.mem_flatten.mp hwr
          obtain ⟨r, _, rfl⟩ := List.mem_map.mp hl
          rcases mem_regionWriteEvs V M env jitter (clock 0) r _ hel with
            ⟨m, h3⟩ | ⟨m, h3⟩ | ⟨ids, h3⟩ | ⟨ids, h3⟩ <;> simp at h3

/-- Witness for C10: two clocks agreeing at their first reading produce the
same run. -/
theorem single_timestamp_per_run_witness :
    lambda_handler validW matchW envW2 (fun _ => 0) (fun _ => 3) =
      lambda_handler validW matchW envW2 (fun _ => 0) (fun n => 3 + n * 0) :=
  (single_timestamp_per_run validW matchW envW2 (fun _ => 0) (fun _ => 3)
    (fun n => 3 + n * 0) (by decide)).1

theorem writesFor_regionReadEvs (env : Env) (now : Nat) (r c : String) :
    writesFor (regionReadEvs env now r) c = [] := by
  rw [writesFor, List.filter_eq_nil_iff]
  intro e he
  rcases mem_regionReadEvs env now r e he with h | ⟨m, h⟩ | ⟨s, h⟩ <;>
    (subst h; simp [Ev.isCallFor])

theorem writesFor_regionWriteEvs_ne (V : String → Except String Bool)
    (M : String → Nat → Except String Bool) (env : Env) (jitter : Nat → ℚ)
    (now : Nat) (r c : String) (hne : r ≠ c) :
    writesFor (regionWriteEvs V M env jitter now r) c = [] := by
  rw [writesFor, List.filter_eq_nil_iff]
  intro e he
  rcases mem_regionWriteEvs V M env jitter now r e he with
    ⟨m, h⟩ | ⟨m, h⟩ | ⟨ids, h⟩ | ⟨ids, h⟩ <;> subst h
  · simp [Ev.isCallFor]
  · simp [Ev.isCallFor]
  · simp only [Ev.isCallFor, beq_iff_eq]
    exact fun h2 => hne h2
  · simp only [Ev.isCallFor, beq_iff_eq]
    exact fun h2 => hne h2

theorem regionWriteEvs_listing_error (V : String → Except String Bool)
    (M : String → Nat → Except String Bool) (env : Env) (jitter : Nat → ℚ)
    (now : Nat) (b e : String) (hb : env.instancesIn b = Except.error e) :
    regionWriteEvs V M env jitter now b = [] := by
  simp [regionWriteEvs, process_region, get_instances_in_region, hb]

theorem regionWriteEvs_congr (V : String → Except String Bool)
    (M : String → Nat → Except String Bool) (env env2 : Env) (jitter : Nat → ℚ)
    (now : Nat) (r : String)
    (hin : env.instancesIn r = env2.instancesIn r)
    (hs : env.startAttempt = env2.startAttempt)
    (ht : env.stopAttempt = env2.stopAttempt) :
    regionWriteEvs V M env jitter now r = regionWriteEvs V M env2 jitter now r := by
  rw [regionWriteEvs, regionWriteEvs,
    process_region_congr V M env.instancesIn env2.instancesIn r now hin]
  cases hpr : process_region V M env2.instancesIn r now with
  | error e => rfl
  | ok res =>
    simp only [batch_start_instances, batch_stop_instances, hs, ht]

theorem writesFor_run_trace (V : String → Except String Bool)
    (M : String → Nat → Except String Bool) (env : Env) (jitter : Nat → ℚ)
    (now : Nat) (rs : List String) (c : String) :
    writesFor (run_trace V M env jitter now rs) c =
      (rs.map (fun r => writesFor (regionWriteEvs V M env jitter now r) c)).flatten := by
  rw [run_trace, writesFor, List.filter_append,
    List.filter_cons_of_neg (by simp [Ev.isCallFor]),
    List.filter_flatten, List.filter_flatten]
  have hreads : ((rs.map (regionReadEvs env now)).map (List.filter (Ev.isCallFor c))).flatten
      = [] := by
    rw [List.flatten_eq_nil_iff]
    intro l hl
    obtain ⟨l2, hl2, rfl⟩ := List.mem_map.mp hl
    obtain ⟨r, _, rfl⟩ := List.mem_map.mp hl2
    exact writesFor_regionReadEvs env now r c
  rw [hreads, List.nil_append, List.map_map]
  rfl

theorem filter_isStop_startSection (env : Env) (jitter : Nat → ℚ)
    (cl : String) (ids : List String) :
    ((batch_start_instances env jitter cl ids).2 ++
      batchErrLog (batch_start_instances env jitter cl ids).1).filter Ev.isStopEv = [] := by
  rw [List.filter_eq_nil_iff]
  intro e he
  rcases List.mem_append.mp he with hb | hl
  · obtain ⟨c2, rfl⟩ := batchRun_events_shape _ _ _ e hb
    simp [Ev.isStopEv]
  · obtain ⟨m, rfl⟩ := mem_batchErrLog _ e hl
    simp [Ev.isStopEv]

theorem filter_isStart_stopSection (env : Env) (jitter : Nat → ℚ)
    (cl : String) (ids : List String) :
    ((batch_stop_instances env jitter cl ids).2 ++
      batchErrLog (batch_stop_instances env jitter cl ids).1).filter Ev.isStartEv = [] := by
  rw [List.filter_eq_nil_iff]
  intro e he
  rcases List.mem_append.mp he with hb | hl
  · obtain ⟨c2, rfl⟩ := batchRun_events_shape _ _ _ e hb
    simp [Ev.isStartEv]
  · obtain ⟨m, rfl⟩ := mem_batchErrLog _ e hl
    simp [Ev.isStartEv]

theorem filter_isStop_readEvs (env : Env) (now : Nat) (r : String) :
    (regionReadEvs env now r).filter Ev.isStopEv = [] := by
  rw [List.filter_eq_nil_iff]
  intro e he
  rcases mem_regionReadEvs env now r e he with h | ⟨m, h⟩ | ⟨s, h⟩ <;>
    (subst h; simp [Ev.isStopEv])

theorem filter_isStart_readEvs (env : Env) (now : Nat) (r : String) :
    (regionReadEvs env now r).filter Ev.isStartEv = [] := by
  rw [List.filter_eq_nil_iff]
  intro e he
  rcases mem_regionReadEvs env now r e he with h | ⟨m, h⟩ | ⟨s, h⟩ <;>
    (subst h; simp [Ev.isStartEv])

theorem filter_run_trace_writes (V : String → Except String Bool)
    (M : String → Nat → Except String Bool) (env : Env) (jitter : Nat → ℚ)
    (now : Nat) (rs : List String) (p : Ev → Bool)
    (hlr : p Ev.listRegions = false)
    (hreads : ∀ r, (regionReadEvs env now r).filter p = []) :
    (run_trace V M env jitter now rs).filter p =
      (rs.map (fun r => (regionWriteEvs V M env jitter now r).filter p)).flatten := by
  rw [run_trace, List.filter_append,
    List.filter_cons_of_neg (by simp [hlr]),
    List.filter_flatten, List.filter_flatten]
  have h0 : ((rs.map (regionReadEvs env now)).map (List.filter p)).flatten = [] := by
    rw [List.flatten_eq_nil_iff]
    intro l hl
    obtain ⟨l2, hl2, rfl⟩ := List.mem_map.mp hl
    obtain ⟨r, _, rfl⟩ := List.mem_map.mp hl2
    exact hreads r
  rw [h0, List.nil_append, List.map_map]
  rfl

theorem filter_isStop_regionWriteEvs_startIndep (V : String → Except String Bool)
    (M : String → Nat → Except String Bool) (env env2 : Env) (jitter : Nat → ℚ)
    (now : Nat) (r : String)
    (hin : env2.instancesIn = env.instancesIn)
    (hst : env2.stopAttempt = env.stopAttempt) :
    (regionWriteEvs V M env jitter now r).filter Ev.isStopEv =
      (regionWriteEvs V M env2 jitter now r).filter Ev.isStopEv := by
  rw [regionWriteEvs, regionWriteEvs,
    process_region_congr V M env.instancesIn env2.instancesIn r now (by rw [hin])]
  cases hpr : process_region V M env2.instancesIn r now with
  | error e => rfl
  | ok res =>
    have hB : ∀ en : Env, (if res.start_instances.isEmpty then ([] : List Ev)
        else (batch_start_instances en jitter res.ec2_client res.start_instances).2 ++
          batchErrLog
            (batch_start_instances en jitter res.ec2_client res.start_instances).1).filter
        Ev.isStopEv = [] := by
      intro en
      by_cases hse : res.start_instances.isEmpty
      · simp [hse]
      · simp only [hse, if_false]
        exact filter_isStop_startSection en jitter _ _
    have hC : (batch_stop_instances env jitter res.ec2_client res.stop_instances) =
        (batch_stop_instances env2 jitter res.ec2_client res.stop_instances) := by
      rw [batch_stop_instances, batch_stop_instances, hst]
    simp only [List.filter_append, hB env, hB env2, hC]

theorem filter_isStart_regionWriteEvs_stopIndep (V : String → Except String Bool)
    (M : String → Nat → Except String Bool) (env env2 : Env) (jitter : Nat → ℚ)
    (now : Nat) (r : String)
    (hin : env2.instancesIn = env.instancesIn)
    (hst : env2.startAttempt = env.startAttempt) :
    (regionWriteEvs V M env jitter now r).filter Ev.isStartEv =
      (regionWriteEvs V M env2 jitter now r).filter Ev.isStartEv := by
  rw [regionWriteEvs, regionWriteEvs,
    process_region_congr V M env.instancesIn env2.instancesIn r now (by rw [hin])]
  cases hpr : process_region V M env2.instancesIn r now with
  | error e => rfl
  | ok res =>
    have hC : ∀ en : Env, (if res.stop_instances.isEmpty then ([] : List Ev)
        else (batch_stop_instances en jitter res.ec2_client res.stop_instances).2 ++
          batchErrLog
            (batch_stop_instances en jitter res.ec2_client res.stop_instances).1).filter
        Ev.isStartEv = [] := by
      intro en
      by_cases hse : res.stop_instances.isEmpty
      · simp [hse]
      · simp only [hse, if_false]
        exact filter_isStart_stopSection en jitter _ _
    have hB : (batch_start_instances env jitter res.ec2_client res.start_instances) =
        (batch_start_instances env2 jitter res.ec2_client res.start_instances) := by
      rw [batch_start_instances, batch_start_instances, hst]
    simp only [List.filter_append, hC env, hC env2, hB]

/-- C8: the run raises iff region discovery fails; any other outcome yields
a normal completion with the run's trace.  A region whose listing raises is
caught and logged and contributes no mutating call, while every other
region's mutating calls are unchanged by that region's failure; and the
outcomes of the batch-mutation tasks (start or stop, succeeding or failing)
never affect the handler's completion nor the calls issued by the other
kind of task. -/
theorem lambda_handler_failure_isolation (V : String → Except String Bool)
    (M : String → Nat → Except String Bool) (env : Env) (jitter : Nat → ℚ)
    (clock : Nat → Nat) :
    (∀ e, lambda_handler V M env jitter clock = Except.error e ↔
      env.regions = Except.error e) ∧
    (∀ rs, env.regions = Except.ok rs →
      lambda_handler V M env jitter clock =
        Except.ok (run_trace V M env jitter (clock 0) rs)) ∧
    (∀ rs b e tr, env.regions = Except.ok rs → env.instancesIn b = Except.error e →
      lambda_handler V M env jitter clock = Except.ok tr → writesFor tr b = []) ∧
    (∀ (env2 : Env) (b : String) (tr tr2 : List Ev),
      env2.regions = env.regions →
      (∀ r, r ≠ b → env2.instancesIn r = env.instancesIn r) →
      env2.startAttempt = env.startAttempt → env2.stopAttempt = env.stopAttempt →
      lambda_handler V M env jitter clock = Except.ok tr →
      lambda_handler V M env2 jitter clock = Except.ok tr2 →
      ∀ c, c ≠ b → writesFor tr c = writesFor tr2 c) ∧
    (∀ (env2 : Env) (tr tr2 : List Ev),
      env2.regions = env.regions → env2.instancesIn = env.instancesIn →
      env2.stopAttempt = env.stopAttempt →
      lambda_handler V M env jitter clock = Except.ok tr →
      lambda_handler V M env2 jitter clock = Except.ok tr2 →
      tr.filter Ev.isStopEv = tr2.filter Ev.isStopEv) ∧
    (∀ (env2 : Env) (tr tr2 : List Ev),
      env2.regions = env.regions → env2.instancesIn = env.instancesIn →
      env2.startAttempt = env.startAttempt →
      lambda_handler V M env jitter clock = Except.ok tr →
      lambda_handler V M env2 jitter clock = Except.ok tr2 →
      tr.filter Ev.isStartEv = tr2.filter Ev.isStartEv) := by
  have hok : ∀ rs, env.regions = Except.ok rs →
      lambda_handler V M env jitter clock =
        Except.ok (run_trace V M env jitter (clock 0) rs) := by
    intro rs hreg
    simp [lambda_handler, get_all_regions, hreg]
  refine ⟨?_, hok, ?_, ?_, ?_, ?_⟩
  · intro e
    cases hreg : env.regions with
    | error e2 => simp [lambda_handler, get_all_regions, hreg]
    | ok rs => simp [lambda_handler, get_all_regions, hreg]
  · intro rs b e tr hreg hb htr
    rw [hok rs hreg] at htr
    injection htr with htr
    subst htr
    rw [writesFor_run_trace, List.flatten_eq_nil_iff]
    intro l hl
    obtain ⟨r, _, rfl⟩ := List.mem_map.mp hl
    by_cases hrb : r = b
    · subst hrb
      rw [regionWriteEvs_listing_error V M env jitter (clock 0) r e hb]
      rfl
    · exact writesFor_regionWriteEvs_ne V M env jitter (clock 0) r b hrb
  · intro env2 b tr tr2 hreg2 hin hs ht htr htr2 c hcb
    cases hreg : env.regions with
    | error e => simp [lambda_handler, get_all_regions, hreg] at htr
    | ok rs =>
      rw [hok rs hreg] at htr
      injection htr with htr
      subst htr
      have hreg2b : env2.regions = Except.ok rs := by rw [hreg2, hreg]
      have hok2 : lambda_handler V M env2 jitter clock =
          Except.ok (run_trace V M env2 jitter (clock 0) rs) := by
        simp [lambda_handler, get_all_regions, hreg2b]
      rw [hok2] at htr2
      injection htr2 with htr2
      subst htr2
      rw [writesFor_run_trace, writesFor_run_trace]
      congr 1
      apply List.map_congr_left
      intro r _
      by_cases hrc : r = c
      · subst hrc
        exact congrArg (fun l => writesFor l r)
          (regionWriteEvs_congr V M env env2 jitter (clock 0) r
            (hin r hcb).symm hs.symm ht.symm)
      · rw [writesFor_regionWriteEvs_ne V M env jitter (clock 0) r c hrc,
          writesFor_regionWriteEvs_ne V M env2 jitter (clock 0) r c hrc]
  · intro env2 tr tr2 hreg2 hin hst htr htr2
    cases hreg : env.regions with
    | error e => simp [lambda_handler, get_all_regions, hreg] at htr
    | ok rs =>
      rw [hok rs hreg] at htr
      injection htr with htr
      subst htr
      have hreg2b : env2.regions = Except.ok rs := by rw [hreg2, hreg]
      have hok2 : lambda_handler V M env2 jitter clock =
          Except.ok (run_trace V M env2 jitter (clock 0) rs) := by
        simp [lambda_handler, get_all_regions, hreg2b]
      rw [hok2] at htr2
      injection htr2 with htr2
      subst htr2
      rw [filter_run_trace_writes V M env jitter (clock 0) rs Ev.isStopEv rfl
          (filter_isStop_readEvs env (clock 0)),
        filter_run_trace_writes V M env2 jitter (clock 0) rs Ev.isStopEv rfl
          (filter_isStop_readEvs env2 (clock 0))]
      congr 1
      apply List.map_congr_left
      intro r _
      exact filter_isStop_regionWriteEvs_startIndep V M env env2 jitter (clock 0) r
        hin hst
  · intro env2 tr tr2 hreg2 hin hst htr htr2
    cases hreg : env.regions with
    | error e => simp [lambda_handler, get_all_regions, hreg] at htr
    | ok rs =>
      rw [hok rs hreg] at htr
      injection htr with htr
      subst htr
      have hreg2b : env2.regions = Except.ok rs := by rw [hreg2, hreg]
      have hok2 : lambda_handler V M env2 jitter clock =
          Except.ok (run_trace V M env2 jitter (clock 0) rs) := by
        simp [lambda_handler, get_all_regions, hreg2b]
      rw [hok2] at htr2
      injection htr2 with htr2
      subst htr2
      rw [filter_run_trace_writes V M env jitter (clock 0) rs Ev.isStartEv rfl
          (filter_isStart_readEvs env (clock 0)),
        filter_run_trace_writes V M env2 jitter (clock 0) rs Ev.isStartEv rfl
          (filter_isStart_readEvs env2 (clock 0))]
      congr 1
      apply List.map_congr_left
      intro r _
      exact filter_isStart_regionWriteEvs_stopIndep V M env env2 jitter (clock 0) r
        hin hst

/-- Witness for C8: a run whose discovery fails raises exactly that error. -/
theorem lambda_handler_failure_isolation_witness :
    lambda_handler validW matchW
      ⟨Except.error "boom", fun _ => Except.ok [], fun _ _ _ => Except.ok (),
       fun _ _ _ => Except.ok ()⟩ (fun _ => 0) (fun _ => 0) =
      Except.error "boom" :=
  ((lambda_handler_failure_isolation validW matchW
    ⟨Except.error "boom", fun _ => Except.ok [], fun _ _ _ => Except.ok (),
     fun _ _ _ => Except.ok ()⟩ (fun _ => 0) (fun _ => 0)).1 "boom").mpr rfl

end EC2CronScheduler
